import Mathlib

/-!
Verification of the Quacker-TTS hierarchical chunker and resilient synthesis
pipeline (Go sources: the chunking file defining `SplitTextTokenLimit` /
`SplitTextByteLimit`, `internal/tts/processor.go`, `internal/tts/chunk.go`).

Go strings are modelled as lists of runes (`List Char`); byte lengths are
computed from the UTF-8 size of each rune.  The Go regular expressions used by
the chunker (`([.!?])`, `([.!?])\s*\n`, `\n(?:-{3,}|_{3,})\n`, `\n\s*\n`) are
modelled by deterministic leftmost matchers that follow RE2 leftmost-first
semantics for these concrete patterns.  The tiktoken encoder is an external
library, so the token-based chunker is parameterised by an abstract cost
function `enc : GoStr → Nat` standing for `len(enc.Encode(s, nil, nil))`.

The synthesis pipeline of `processor.go` is embedded as a state-passing
function producing an explicit event trace (provider calls, sleeps, error
callbacks, progress callbacks); the provider is a state machine, which lets a
single model quantify over arbitrary provider behaviours.
-/

namespace Quacker

/-- Go strings, viewed as their sequence of runes. -/
abbrev GoStr := List Char

/-- Bytes of the UTF-8 encoding of a Go string: `len([]byte(s))`. -/
def byteLen (s : GoStr) : Nat := (s.map Char.utf8Size).sum

/-- The predicate of Go `unicode.IsSpace` (the Unicode White_Space property),
used by `strings.TrimSpace` and `strings.Fields`. -/
def goIsSpace (c : Char) : Bool :=
  let n := c.toNat
  (9 ≤ n && n ≤ 13) || n = 32 || n = 0x85 || n = 0xA0 || n = 0x1680 ||
    (0x2000 ≤ n && n ≤ 0x200A) || n = 0x2028 || n = 0x2029 || n = 0x202F ||
    n = 0x205F || n = 0x3000

/-- The character class of RE2 `\s`, namely `[\t\n\f\r ]`. -/
def reIsSpace (c : Char) : Bool :=
  c = '\t' || c = '\n' || c = '\x0c' || c = '\r' || c = ' '

/-- Go `strings.TrimSpace`. -/
def trimSpace (s : GoStr) : GoStr :=
  ((s.dropWhile goIsSpace).reverse.dropWhile goIsSpace).reverse

/-- Helper for `goFields`: accumulates the current word (in reverse). -/
def goFieldsAux : GoStr → GoStr → List GoStr
  | [], acc => if acc.isEmpty then [] else [acc.reverse]
  | c :: rest, acc =>
    if goIsSpace c then
      if acc.isEmpty then goFieldsAux rest [] else acc.reverse :: goFieldsAux rest []
    else goFieldsAux rest (c :: acc)

/-- Go `strings.Fields`: the maximal runs of non-whitespace characters. -/
def goFields (s : GoStr) : List GoStr := goFieldsAux s []

/-- Go slice expression `s[a:b]` (indices counted in runes here; all slicing
performed by the modelled code happens at rune boundaries). -/
def slice (s : GoStr) (a b : Nat) : GoStr := (s.take b).drop a

/-- Go `strings.Contains s sub`. -/
def strContains (s sub : GoStr) : Bool :=
  (List.range (s.length + 1)).any fun i => sub.isPrefixOf (s.drop i)

/-- Go `strings.ToLower` (ASCII is all the error classifiers need). -/
def goToLower (s : GoStr) : GoStr := s.map Char.toLower

/-! ## Regular-expression models

Each matcher takes the subject and a start position and returns the length of
the leftmost-first match starting exactly there, if any.  `findAllIdx`
enumerates the non-overlapping matches the way Go `FindAllStringIndex` does:
scan left to right, and resume after the end of each match. -/

/-- Index of the last `\n` inside a run of whitespace, used by the greedy
`\s*\n` tails of the sentence/newline separators. -/
def lastNewlineIn (ws : GoStr) : Option Nat :=
  match ws.reverse.findIdx? (fun c => c = '\n') with
  | some j => some (ws.length - 1 - j)
  | none => none

/-- Sentence terminators matched by `([.!?])`. -/
def isSentenceEnd (c : Char) : Bool := c = '.' || c = '!' || c = '?'

/-- Matcher for `sentenceEndRegex`, the pattern `([.!?])`. -/
def senMatchAt (s : GoStr) (i : Nat) : Option Nat :=
  match s[i]? with
  | some c => if isSentenceEnd c then some 1 else none
  | none => none

/-- Matcher for `sentenceEndNewlineRegex`, the pattern `([.!?])\s*\n`: a
terminator, then a greedy run of `\s` ending at the last `\n` available. -/
def senNLMatchAt (s : GoStr) (i : Nat) : Option Nat :=
  match s[i]? with
  | some c =>
    if isSentenceEnd c then
      match lastNewlineIn ((s.drop (i + 1)).takeWhile reIsSpace) with
      | some j => some (j + 2)
      | none => none
    else none
  | none => none

/-- Matcher for `multiNewlineSeparatorRegex`, the pattern `\n\s*\n`. -/
def mnMatchAt (s : GoStr) (i : Nat) : Option Nat :=
  match s[i]? with
  | some c =>
    if c = '\n' then
      match lastNewlineIn ((s.drop (i + 1)).takeWhile reIsSpace) with
      | some j => some (j + 2)
      | none => none
    else none
  | none => none

/-- Matcher for `hrSeparatorRegex`, the pattern `\n(?:-{3,}|_{3,})\n`: the
dash alternative is tried first; `-{3,}` greedily takes the whole run, and the
run must be followed directly by `\n`. -/
def hrMatchAt (s : GoStr) (i : Nat) : Option Nat :=
  match s[i]? with
  | some c =>
    if c = '\n' then
      let dashes := ((s.drop (i + 1)).takeWhile (fun d => d = '-')).length
      if 3 ≤ dashes && s[i + 1 + dashes]? = some '\n' then some (dashes + 2)
      else
        let unders := ((s.drop (i + 1)).takeWhile (fun d => d = '_')).length
        if 3 ≤ unders && s[i + 1 + unders]? = some '\n' then some (unders + 2)
        else none
    else none
  | none => none

/-- Scanner behind `FindAllStringIndex`: `fuel` is an upper bound on the number
of remaining scan steps (each step advances by at least one rune, so
`s.length` suffices from position 0). -/
def findAllIdxAux (m : GoStr → Nat → Option Nat) (s : GoStr) : Nat → Nat → List (Nat × Nat)
  | 0, _ => []
  | fuel + 1, i =>
    if i < s.length then
      match m s i with
      | some L => (i, i + max 1 L) :: findAllIdxAux m s fuel (i + max 1 L)
      | none => findAllIdxAux m s fuel (i + 1)
    else []

/-- Go `regexp.FindAllStringIndex(s, -1)` for the matcher `m`. -/
def findAllIdx (m : GoStr → Nat → Option Nat) (s : GoStr) : List (Nat × Nat) :=
  findAllIdxAux m s s.length 0

/-- Go `regexp.Split(s, -1)` given the match spans: the pieces between (and
around) the matches, empty pieces included. -/
def splitAtMatches (s : GoStr) : Nat → List (Nat × Nat) → List GoStr
  | prev, [] => [slice s prev s.length]
  | prev, (a, b) :: rest => slice s prev a :: splitAtMatches s b rest

/-- Go `regexp.Split(s, -1)` for the matcher `m`. -/
def goSplit (m : GoStr → Nat → Option Nat) (s : GoStr) : List GoStr :=
  splitAtMatches s 0 (findAllIdx m s)

/-! ## Hierarchical chunker

Embedding of the chunking source file.  `GetInitialChunks` splits on major
separators; then either a byte-budgeted or a token-budgeted recursive splitter
refines every over-budget part.  Defaults from the source:
`DefaultTokenLimit = 2000`, `DefaultByteLimit = 4500`. -/

def DefaultTokenLimit : Nat := 2000

def DefaultByteLimit : Nat := 4500

/-- `GetInitialChunks`: split by horizontal rules, else by multi-newlines,
else yield the trimmed text as a single chunk (or nothing when blank). -/
def GetInitialChunks (text : GoStr) : List GoStr :=
  let filteredHrParts := (goSplit hrMatchAt text).filter (fun p => !(trimSpace p).isEmpty)
  if 1 < filteredHrParts.length then filteredHrParts
  else
    let filteredMn := (goSplit mnMatchAt text).filter (fun p => !(trimSpace p).isEmpty)
    if 1 < filteredMn.length then filteredMn
    else
      let t := trimSpace text
      if t.isEmpty then [] else [t]

/-- Structural helper for `splitByRune`: emit slices of `step` runes.  The
fuel starts at the rune count, which bounds the number of slices when
`1 ≤ step`. -/
def splitByRuneAux (step : Nat) : Nat → GoStr → List GoStr
  | _, [] => []
  | 0, l => [l]
  | fuel + 1, l => l.take step :: splitByRuneAux step fuel (l.drop step)

/-- `splitByRune` from the chunking file: fixed slices of `maxRunes` runes.
With `maxRunes = 0` the Go loop never advances; that argument is unreachable
from the entry points (which pass `maxTokens*3` with a positive budget), and
the model returns `[]` there. -/
def splitByRune (text : GoStr) (maxRunes : Nat) : List GoStr :=
  if maxRunes = 0 then [] else splitByRuneAux maxRunes text.length text

/-- `splitByRuneBytes`: accumulate runes while the byte size stays within
`maxBytes`, flushing the current chunk just before it would overflow. -/
def splitByRuneBytesAux (maxBytes : Nat) : GoStr → GoStr → List GoStr
  | [], cur => if cur.isEmpty then [] else [cur]
  | r :: rest, cur =>
    if maxBytes < byteLen (cur ++ [r]) then
      if cur.isEmpty then splitByRuneBytesAux maxBytes rest (cur ++ [r])
      else cur :: splitByRuneBytesAux maxBytes rest [r]
    else splitByRuneBytesAux maxBytes rest (cur ++ [r])

/-- `splitByRuneBytes` from the chunking file. -/
def splitByRuneBytes (text : GoStr) (maxBytes : Nat) : List GoStr :=
  splitByRuneBytesAux maxBytes text []

/-- One `splitByWord`-style packing step shared by both cost schemes: flush
when adding `" " ++ w` to the accumulator would overflow (the flush in the
source is unguarded, so an empty accumulator is emitted as an empty chunk),
then append the word, with a separating space only when the accumulator is
nonempty. -/
def packWordStep (overflows : Bool) (cur w : GoStr) : List GoStr × GoStr :=
  let flushed : List GoStr := if overflows then [cur] else []
  let cur1 : GoStr := if overflows then [] else cur
  (flushed, if cur1.isEmpty then w else cur1 ++ ' ' :: w)

/-- `splitByWordBytes`: greedy packing of whitespace-separated words under a
byte budget; an over-budget word is rune-split instead. -/
def splitByWordBytesAux (maxBytes : Nat) : List GoStr → GoStr → List GoStr
  | [], cur => if cur.isEmpty then [] else [cur]
  | w :: ws, cur =>
    if maxBytes < byteLen w then
      (if cur.isEmpty then [] else [cur]) ++ splitByRuneBytes w maxBytes ++
        splitByWordBytesAux maxBytes ws []
    else
      let st := packWordStep (decide (maxBytes < byteLen (cur ++ ' ' :: w))) cur w
      st.1 ++ splitByWordBytesAux maxBytes ws st.2

/-- `splitByWordBytes` from the chunking file. -/
def splitByWordBytes (text : GoStr) (maxBytes : Nat) : List GoStr :=
  splitByWordBytesAux maxBytes (goFields text) []

/-- `splitByWord` (token variant), parameterised by the encoder length
function `enc`; an over-budget word falls back to `splitByRune` with a
character budget of `maxTokens * 3`. -/
def splitByWordTokAux (enc : GoStr → Nat) (maxTokens : Nat) : List GoStr → GoStr → List GoStr
  | [], cur => if cur.isEmpty then [] else [cur]
  | w :: ws, cur =>
    if maxTokens < enc w then
      (if cur.isEmpty then [] else [cur]) ++ splitByRune w (maxTokens * 3) ++
        splitByWordTokAux enc maxTokens ws []
    else
      let st := packWordStep (decide (maxTokens < enc (cur ++ ' ' :: w))) cur w
      st.1 ++ splitByWordTokAux enc maxTokens ws st.2

/-- `splitByWord` from the chunking file (token costs). -/
def splitByWord (enc : GoStr → Nat) (text : GoStr) (maxTokens : Nat) : List GoStr :=
  splitByWordTokAux enc maxTokens (goFields text) []

/-- The segment-accumulation loop shared by both recursive splitters.  State:
the index pairs still to process, `lastPos`, and the accumulator; segments are
Go slices `chunk[lastPos:idx[1]]`, trimmed; the trailing slice after the last
match is appended untrimmed.  Note that the source appends segments to the
accumulator without any separating space and never splits a segment that is
over budget on its own. -/
def accumSegs (cost : GoStr → Nat) (maxB : Nat) (chunk : GoStr) :
    List (Nat × Nat) → Nat → GoStr → List GoStr
  | [], lastPos, cur =>
    if lastPos < chunk.length then
      let tail := slice chunk lastPos chunk.length
      let flushed : List GoStr :=
        if maxB < cost (cur ++ tail) && !cur.isEmpty then [cur] else []
      let cur1 : GoStr := if maxB < cost (cur ++ tail) && !cur.isEmpty then [] else cur
      flushed ++ (if (cur1 ++ tail).isEmpty then [] else [cur1 ++ tail])
    else if cur.isEmpty then [] else [cur]
  | (_, b) :: rest, lastPos, cur =>
    let seg := trimSpace (slice chunk lastPos b)
    if seg.isEmpty then accumSegs cost maxB chunk rest b cur
    else
      let flushed : List GoStr :=
        if maxB < cost (cur ++ seg) && !cur.isEmpty then [cur] else []
      let cur1 : GoStr := if maxB < cost (cur ++ seg) && !cur.isEmpty then [] else cur
      flushed ++ accumSegs cost maxB chunk rest b (cur1 ++ seg)

/-- `splitChunkRecursivelyBytes`: level 0 splits at sentence-end-plus-newline,
level 1 at sentence end, level 2 by words, level 3 and beyond by runes; a
level with no separator matches escalates to the next one.  `fuel` bounds the
level escalations (at most two from level 0), so 3 always suffices; the
exhausted-fuel branch mirrors the final rune fallback and is unreachable from
the entry point. -/
def splitChunkRecursivelyBytesF (maxBytes : Nat) : Nat → GoStr → Nat → List GoStr
  | 0, chunk0, _ => splitByRuneBytes (trimSpace chunk0) maxBytes
  | fuel + 1, chunk0, level =>
    let chunk := trimSpace chunk0
    if chunk.isEmpty then []
    else if level = 2 then splitByWordBytes chunk maxBytes
    else if 3 ≤ level then splitByRuneBytes chunk maxBytes
    else
      let ms := findAllIdx (if level = 0 then senNLMatchAt else senMatchAt) chunk
      if ms.isEmpty then splitChunkRecursivelyBytesF maxBytes fuel chunk (level + 1)
      else accumSegs byteLen maxBytes chunk ms 0 []

/-- `splitChunkRecursivelyBytes` from the chunking file. -/
def splitChunkRecursivelyBytes (chunk : GoStr) (maxBytes level : Nat) : List GoStr :=
  splitChunkRecursivelyBytesF maxBytes 3 chunk level

/-- `splitChunkRecursively` (token costs), with the same level scheme; the
rune fallback uses a character budget of `maxTokens * 3`. -/
def splitChunkRecursivelyTokF (enc : GoStr → Nat) (maxTokens : Nat) :
    Nat → GoStr → Nat → List GoStr
  | 0, chunk0, _ => splitByRune (trimSpace chunk0) (maxTokens * 3)
  | fuel + 1, chunk0, level =>
    let chunk := trimSpace chunk0
    if chunk.isEmpty then []
    else if level = 2 then splitByWord enc chunk maxTokens
    else if 3 ≤ level then splitByRune chunk (maxTokens * 3)
    else
      let ms := findAllIdx (if level = 0 then senNLMatchAt else senMatchAt) chunk
      if ms.isEmpty then splitChunkRecursivelyTokF enc maxTokens fuel chunk (level + 1)
      else accumSegs enc maxTokens chunk ms 0 []

/-- `splitChunkRecursively` from the chunking file (token costs). -/
def splitChunkRecursively (enc : GoStr → Nat) (chunk : GoStr) (maxTokens level : Nat) :
    List GoStr :=
  splitChunkRecursivelyTokF enc maxTokens 3 chunk level

/-- `SplitTextByteLimit`: trim, split into major chunks, and recursively split
every major chunk that exceeds `maxBytes` bytes. -/
def SplitTextByteLimit (text0 : GoStr) (maxBytes : Nat) : List GoStr :=
  let text := trimSpace text0
  if text.isEmpty then []
  else
    (GetInitialChunks text).flatMap fun chunk =>
      if byteLen chunk ≤ maxBytes then [chunk]
      else splitChunkRecursivelyBytes chunk maxBytes 0

/-- `SplitTextTokenLimit`, parameterised by the tiktoken encoder length `enc`
(the `model` string argument of the source only selects this encoder). -/
def SplitTextTokenLimit (enc : GoStr → Nat) (text0 : GoStr) (maxTokens : Nat) : List GoStr :=
  let text := trimSpace text0
  if text.isEmpty then []
  else
    (GetInitialChunks text).flatMap fun chunk =>
      if enc chunk ≤ maxTokens then [chunk]
      else splitChunkRecursively enc chunk maxTokens 0

/-! ## Processor utility functions (`internal/tts/processor.go`) -/

/-- `getBackoffDelay`, in seconds: 30 after attempt 1, 60 after attempt 2,
120 thereafter. -/
def getBackoffDelay (attempt : Nat) : Nat :=
  if attempt = 1 then 30 else if attempt = 2 then 60 else 120

/-- `isQuotaOrRateError`. -/
def isQuotaOrRateError (msg : GoStr) : Bool :=
  let m := goToLower msg
  strContains m "quota".toList || strContains m "rate".toList ||
    strContains m "limit".toList || strContains m "deadline".toList

/-- `isRetryableTTS`. -/
def isRetryableTTS (msg : GoStr) : Bool :=
  let m := goToLower msg
  strContains m "502".toList || strContains m "context deadline exceeded".toList ||
    strContains m "deadlineexceeded".toList || strContains m "quota".toList ||
    strContains m "rate".toList

/-- `sanitizeWordForTTS`: keep only ASCII letters, ASCII digits and spaces,
in order (the source appends the kept runes to a builder). -/
def sanitizeWordForTTS : GoStr → GoStr
  | [] => []
  | r :: rest =>
    if ('a' ≤ r && r ≤ 'z') || ('A' ≤ r && r ≤ 'Z') || ('0' ≤ r && r ≤ '9') || r = ' ' then
      r :: sanitizeWordForTTS rest
    else sanitizeWordForTTS rest

/-- The character class stripped by `stripMarkdown`, namely the Go regex
`[\\*_#\[\]()>~` followed by a backtick and `]+`. -/
def isMarkdownChar (c : Char) : Bool :=
  c = '\\' || c = '*' || c = '_' || c = '#' || c = '[' || c = ']' ||
    c = '(' || c = ')' || c = '>' || c = '~' || c = '\x60'

/-- `stripMarkdown`: replacing every run of markdown characters by the empty
string is removing each such character. -/
def stripMarkdown (s : GoStr) : GoStr := s.filter (fun c => !isMarkdownChar c)

/-- Go `strings.Split(voice, "-")`. -/
def splitDash (s : GoStr) : List GoStr := s.splitOn '-'

/-- `extractLangCode`: first two dash-separated parts, defaulting to
`en-US`. -/
def extractLangCode (voice : GoStr) : GoStr :=
  match splitDash voice with
  | p0 :: p1 :: _ => p0 ++ '-' :: p1
  | _ => "en-US".toList

/-- `buildFallbackVoices`: the suffix after the last dash of the original
voice seeds the first candidate; the rest are fixed families in `origLang`. -/
def buildFallbackVoices (origLang origVoice : GoStr) : List GoStr :=
  let origSuffix :=
    match origVoice.reverse.findIdx? (fun c => c = '-') with
    | some j => origVoice.drop (origVoice.length - j)
    | none => ([] : GoStr)
  [origLang ++ "-Chirp3-HD-".toList ++ origSuffix,
   origLang ++ "-Chirp-HD-O".toList,
   origLang ++ "-Neural2-G".toList,
   origLang ++ "-Standard-G".toList,
   origLang ++ "-Studio-C".toList]

/-! ## Pipeline model

`ProcessTextToSpeech` / `processChunkRecursivelyWithDepth` are embedded as
state-passing functions over an abstract provider (a state machine standing
for `provider.GenerateSpeech`), producing an explicit event trace.  The
context is modelled as a cancellation flag fixed for the run.  Durations are
in the units of `getBackoffDelay` (seconds). -/

/-- Audio byte buffers. -/
abbrev AudioBytes := List Nat

deriving instance DecidableEq for Except

/-- `UnifiedRequest` (provider.go).  `Speed` is a `float64` that the modelled
code only ever forwards, so a rational stands in for it. -/
structure UnifiedRequest where
  Text : GoStr
  Voice : GoStr
  Speed : ℚ
  Format : GoStr
  ModelName : GoStr
  deriving DecidableEq, Repr

/-- A provider: its name, token budget, and `GenerateSpeech` as a state
machine returning audio bytes or a Go error message. -/
structure ProviderModel (σ : Type) where
  name : GoStr
  maxTokensPerChunk : Nat
  gen : σ → UnifiedRequest → σ × Except GoStr AudioBytes

/-- `ProcessorConfig`.  `ChunkDelaySec` is carried for fidelity but unused by
the modelled paths, as in the source. -/
structure ProcessorConfig where
  MinChunkBytes : Nat
  ChunkDelaySec : Nat
  MaxRetries : Nat
  GoogleFallbackVoices : Option (List GoStr)
  deriving DecidableEq, Repr

/-- `DefaultProcessorConfig`. -/
def DefaultProcessorConfig : ProcessorConfig :=
  { MinChunkBytes := 1, ChunkDelaySec := 2, MaxRetries := 3, GoogleFallbackVoices := none }

/-- Observable events of one pipeline run: a provider call with its request,
a backoff sleep (seconds), an error-callback message, a progress-callback
invocation. -/
inductive Ev where
  | call (req : UnifiedRequest)
  | sleep (sec : Nat)
  | errCb (msg : GoStr)
  | progress
  deriving DecidableEq, Repr

/-- Number of provider calls in a trace. -/
def countCalls (tr : List Ev) : Nat :=
  tr.countP fun e => match e with | .call _ => true | _ => false

/-- Number of error-callback invocations in a trace. -/
def countErrCb (tr : List Ev) : Nat :=
  tr.countP fun e => match e with | .errCb _ => true | _ => false

/-- Number of progress-callback invocations in a trace. -/
def countProgress (tr : List Ev) : Nat :=
  tr.countP fun e => match e with | .progress => true | _ => false

/-- The texts of the provider calls of a trace, in order. -/
def callTexts (tr : List Ev) : List GoStr :=
  tr.filterMap fun e => match e with | .call r => some r.Text | _ => none

/-- The sleep durations of a trace, in order. -/
def sleepSecs (tr : List Ev) : List Nat :=
  tr.filterMap fun e => match e with | .sleep d => some d | _ => none

/-- The request rebuilt for every attempt: the chunk text with the voice,
speed, format and model of the original request. -/
def chunkRequest (req : UnifiedRequest) (chunk : GoStr) : UnifiedRequest :=
  { Text := chunk, Voice := req.Voice, Speed := req.Speed,
    Format := req.Format, ModelName := req.ModelName }

/-- Result of the retry loop: audio on some successful attempt, or the last
error (none when `maxRetries = 0` and the loop body never ran). -/
inductive ALRes where
  | success (d : AudioBytes)
  | failed (lastErr : Option GoStr)
  deriving DecidableEq, Repr

/-- The advisory emitted before waiting on a quota/rate-classified error. -/
def rateAdvisoryMsg : GoStr :=
  "Google TTS may be rate-limiting or throttling your requests. Waiting before retrying...".toList

/-- The retry loop of `processChunkRecursivelyWithDepth` (step 1).  The Go
loop runs `attempt` from 1 while `attempt ≤ maxRetries`; the extra structural
argument is the number of iterations left, `maxRetries - attempt + 1`.  On
success the loop invokes the progress callback and returns; on a retryable
error before the last attempt it sleeps `getBackoffDelay attempt` (after a
rate advisory when applicable) and retries; otherwise it exits with the last
error. -/
def attemptLoopAux {σ : Type} (p : ProviderModel σ) (req : UnifiedRequest) (chunk : GoStr)
    (maxRetries : Nat) : Nat → Nat → σ → σ × List Ev × ALRes
  | _, 0, st => (st, [], .failed none)
  | attempt, rem + 1, st =>
    let r := chunkRequest req chunk
    match p.gen st r with
    | (st1, .ok d) => (st1, [.call r, .progress], .success d)
    | (st1, .error e) =>
      if attempt < maxRetries && isRetryableTTS e then
        let advisory : List Ev := if isQuotaOrRateError e then [.errCb rateAdvisoryMsg] else []
        let rest := attemptLoopAux p req chunk maxRetries (attempt + 1) rem st1
        (rest.1, .call r :: advisory ++ .sleep (getBackoffDelay attempt) :: rest.2.1, rest.2.2)
      else (st1, [.call r], .failed (some e))

/-- Entry of the retry loop: `attempt = 1`, `maxRetries` iterations left. -/
def attemptLoop {σ : Type} (p : ProviderModel σ) (req : UnifiedRequest) (chunk : GoStr)
    (maxRetries : Nat) (st : σ) : σ × List Ev × ALRes :=
  attemptLoopAux p req chunk maxRetries 1 maxRetries st

/-- Message reported when the recursion-depth guard fires (`%.40s` truncates
to 40 runes). -/
def depthExceededMsg (chunk : GoStr) : GoStr :=
  "Chunk recursion depth exceeded (".toList ++ chunk.take 40 ++
    "...). Aborting this section.".toList

/-- Message reported before substituting the error-message chunk. -/
def substituteMsg (chunk : GoStr) : GoStr :=
  "A section could not be processed (".toList ++ chunk.take 40 ++
    "...). Substituting error message and continuing.".toList

/-- Message reported when a chunk finally fails. -/
def finalFailMsg (chunk : GoStr) : GoStr :=
  "A section could not be processed (".toList ++ chunk.take 40 ++
    "...). Try rephrasing or splitting it manually.".toList

/-- The error returned when the recursion-depth guard fires. -/
def recursionDepthErr : GoStr := "recursion depth exceeded".toList

/-- The error of a cancelled context (`context canceled`). -/
def ctxCanceledErr : GoStr := "context canceled".toList

/-- The fixed substitute text synthesised as a last resort. -/
def placeholderText : GoStr := "Error converting Text. Continuing.".toList

/-- The substitute request of the last resort: the fixed text under the
original voice prefixed with `en-US-`. -/
def placeholderRequest (req : UnifiedRequest) : UnifiedRequest :=
  { Text := placeholderText, Voice := "en-US-".toList ++ req.Voice,
    Speed := req.Speed, Format := req.Format, ModelName := req.ModelName }

/-- One guarded degradation attempt: when `enabled`, call the provider with
`r` (returning audio and a progress event on success, or the updated last
error); when disabled, pass `lastErr` through unchanged. -/
def tryStep {σ : Type} (p : ProviderModel σ) (enabled : Bool) (r : UnifiedRequest)
    (st : σ) (lastErr : Option GoStr) : σ × List Ev × Option AudioBytes × Option GoStr :=
  if enabled then
    match p.gen st r with
    | (st1, .ok d) => (st1, [.call r, .progress], some d, none)
    | (st1, .error e) => (st1, [.call r], none, some e)
  else (st, [], none, lastErr)

/-- The fallback-voice loop: try the chunk with each voice in turn, returning
on the first success. -/
def tryVoices {σ : Type} (p : ProviderModel σ) (req : UnifiedRequest) (chunk : GoStr) :
    List GoStr → σ → Option GoStr → σ × List Ev × Option AudioBytes × Option GoStr
  | [], st, lastErr => (st, [], none, lastErr)
  | v :: vs, st, _lastErr =>
    let r : UnifiedRequest :=
      { Text := chunk, Voice := v, Speed := req.Speed,
        Format := req.Format, ModelName := req.ModelName }
    match p.gen st r with
    | (st1, .ok d) => (st1, [.call r, .progress], some d, none)
    | (st1, .error e) =>
      let rest := tryVoices p req chunk vs st1 (some e)
      (rest.1, .call r :: rest.2.1, rest.2.2)

/-- Steps 3 and onward of `processChunkRecursivelyWithDepth` for a
minimum-size chunk: retry once with the sanitized text if sanitizing changed
it, then once with the markdown-stripped text, then (Google only) with each
fallback voice, then with the fixed substitute text under the voice
`en-US-<origVoice>`; falling out of all of them reports the final failure and
returns the most recent error (or success with no bytes when no attempt ever
ran and the retry loop never produced an error). -/
def minChunkLogic {σ : Type} (p : ProviderModel σ) (req : UnifiedRequest) (chunk : GoStr)
    (isGoogle : Bool) (cfg : ProcessorConfig) (lastErr0 : Option GoStr) (st0 : σ) :
    σ × List Ev × Except GoStr AudioBytes :=
  let origVoice := req.Voice
  let origLang := extractLangCode origVoice
  let sanitized := sanitizeWordForTTS chunk
  let finalize := fun (st : σ) (tr : List Ev) (lastE : Option GoStr) =>
    (st, tr ++ [Ev.errCb (finalFailMsg chunk)],
      match lastE with | some e => Except.error e | none => Except.ok ([] : AudioBytes))
  match tryStep p (sanitized ≠ chunk && !sanitized.isEmpty) (chunkRequest req sanitized)
      st0 lastErr0 with
  | (st1, tr1, some d, _) => (st1, tr1, .ok d)
  | (st1, tr1, none, e1) =>
    let mdStripped := stripMarkdown chunk
    match tryStep p (mdStripped ≠ chunk && !mdStripped.isEmpty) (chunkRequest req mdStripped)
        st1 e1 with
    | (st2, tr2, some d, _) => (st2, tr1 ++ tr2, .ok d)
    | (st2, tr2, none, e2) =>
      if isGoogle then
        let voices := cfg.GoogleFallbackVoices.getD (buildFallbackVoices origLang origVoice)
        match tryVoices p req chunk voices st2 e2 with
        | (st3, tr3, some d, _) => (st3, tr1 ++ tr2 ++ tr3, .ok d)
        | (st3, tr3, none, _) =>
          let r : UnifiedRequest := placeholderRequest req
          match p.gen st3 r with
          | (st4, .ok d) =>
            (st4, tr1 ++ tr2 ++ tr3 ++ [.errCb (substituteMsg chunk), .call r, .progress], .ok d)
          | (st4, .error e4) =>
            finalize st4 (tr1 ++ tr2 ++ tr3 ++ [.errCb (substituteMsg chunk), .call r]) (some e4)
      else finalize st2 (tr1 ++ tr2) e2

/-- `processChunkRecursivelyWithDepth`.  The context is a fixed cancellation
flag; the depth guard aborts above level 20.  The structural `fuel` argument
bounds the nesting (each recursive call increases `level` and decreases
`fuel`, and the entry point passes 22, so the guard always fires first; the
exhausted-fuel branch repeats the guard result).  The unused
`prevChunkBytes` argument of the source is omitted.  Step 2 halves the budget
and recurses over the sub-chunks, keeping only successful audio; step 3 is
`minChunkLogic` behind the single-word/minimum-size gate, reachable by
falling through step 2 or by the `goto` when sub-chunking cannot reduce the
chunk. -/
def processChunkWD {σ : Type} (p : ProviderModel σ) (enc : GoStr → Nat) (cancelled : Bool)
    (req : UnifiedRequest) (isGoogle : Bool) (cfg : ProcessorConfig) :
    Nat → GoStr → Nat → σ → σ × List Ev × Except GoStr AudioBytes
  | 0, chunk, _level, st =>
    if cancelled then (st, [], .error ctxCanceledErr)
    else (st, [.errCb (depthExceededMsg chunk)], .error recursionDepthErr)
  | fuel + 1, chunk, level, st =>
    let words := goFields chunk
    let chunkBytes := byteLen chunk
    if cancelled then (st, [], .error ctxCanceledErr)
    else if 20 < level then
      (st, [.errCb (depthExceededMsg chunk)], .error recursionDepthErr)
    else
      match attemptLoop p req chunk cfg.MaxRetries st with
      | (st1, tr1, .success d) => (st1, tr1, .ok d)
      | (st1, tr1, .failed lastErr) =>
        let gate := fun (st2 : σ) (tr2 : List Ev) (lastE : Option GoStr) =>
          if (words.length = 1 && chunkBytes < 200) || chunkBytes ≤ cfg.MinChunkBytes then
            let r := minChunkLogic p req chunk isGoogle cfg lastE st2
            (r.1, tr2 ++ r.2.1, r.2.2)
          else
            (st2, tr2 ++ [Ev.errCb (finalFailMsg chunk)],
              match lastE with | some e => Except.error e | none => Except.ok ([] : AudioBytes))
        if cfg.MinChunkBytes < chunkBytes && 1 < words.length then
          let subChunks := if isGoogle then SplitTextByteLimit chunk (chunkBytes / 2)
                           else SplitTextTokenLimit enc chunk (p.maxTokensPerChunk / 2)
          if subChunks.length = 1 && byteLen (subChunks.headD []) = chunkBytes then
            gate st1 tr1 lastErr
          else
            let folded := subChunks.foldl
              (fun (acc : σ × List Ev × AudioBytes) sub =>
                let r := processChunkWD p enc cancelled req isGoogle cfg fuel sub (level + 1) acc.1
                match r.2.2 with
                | .ok d => (r.1, acc.2.1 ++ r.2.1, acc.2.2 ++ d)
                | .error _ => (r.1, acc.2.1 ++ r.2.1, acc.2.2))
              (st1, ([] : List Ev), ([] : AudioBytes))
            if folded.2.2.isEmpty then gate folded.1 (tr1 ++ folded.2.1) lastErr
            else (folded.1, tr1 ++ folded.2.1, .ok folded.2.2)
        else gate st1 tr1 lastErr

/-- `processChunkRecursively`: depth 0, with enough fuel for the guard to
fire first on every path. -/
def processChunkRecursively {σ : Type} (p : ProviderModel σ) (enc : GoStr → Nat)
    (cancelled : Bool) (req : UnifiedRequest) (chunk : GoStr) (isGoogle : Bool)
    (cfg : ProcessorConfig) (st : σ) : σ × List Ev × Except GoStr AudioBytes :=
  processChunkWD p enc cancelled req isGoogle cfg 22 chunk 0 st

/-- The chunk loop of `ProcessTextToSpeech`: per-chunk errors are skipped
(`continue`), successful audio is appended in order. -/
def processAllChunks {σ : Type} (p : ProviderModel σ) (enc : GoStr → Nat) (cancelled : Bool)
    (req : UnifiedRequest) (isGoogle : Bool) (cfg : ProcessorConfig) :
    List GoStr → σ → σ × List Ev × AudioBytes
  | [], st => (st, [], [])
  | c :: cs, st =>
    let r := processChunkRecursively p enc cancelled req c isGoogle cfg st
    let rest := processAllChunks p enc cancelled req isGoogle cfg cs r.1
    match r.2.2 with
    | .ok d => (rest.1, r.2.1 ++ rest.2.1, d ++ rest.2.2)
    | .error _ => (rest.1, r.2.1 ++ rest.2.1, rest.2.2)

/-- `ProcessTextToSpeech`: choose the chunker by provider name, process every
chunk, and always return the collected audio with a nil job-level error. -/
def ProcessTextToSpeech {σ : Type} (p : ProviderModel σ) (enc : GoStr → Nat) (cancelled : Bool)
    (req : UnifiedRequest) (cfgOpt : Option ProcessorConfig) (st : σ) :
    σ × List Ev × AudioBytes × Option GoStr :=
  let cfg := cfgOpt.getD DefaultProcessorConfig
  let isGoogle := p.name == "google".toList
  let chunks := if isGoogle then SplitTextByteLimit req.Text DefaultByteLimit
                else SplitTextTokenLimit enc req.Text p.maxTokensPerChunk
  let r := processAllChunks p enc cancelled req isGoogle cfg chunks st
  (r.1, r.2.1, r.2.2, none)

/-- The chunk list a run of `ProcessTextToSpeech` works through. -/
def pipelineChunks {σ : Type} (p : ProviderModel σ) (enc : GoStr → Nat)
    (req : UnifiedRequest) : List GoStr :=
  if p.name == "google".toList then SplitTextByteLimit req.Text DefaultByteLimit
  else SplitTextTokenLimit enc req.Text p.maxTokensPerChunk

/-- The `(completed, total)` pairs passed to the progress callback: the
closure in `ProcessTextToSpeech` increments `completed` once per progress
invocation and always passes the fixed chunk total. -/
def reportedProgress (tr : List Ev) (total : Nat) : List (Nat × Nat) :=
  (List.range (countProgress tr)).map fun i => (i + 1, total)

/-- The fractions `float64(completed)/float64(total)` computed by the
progress handler in `main.go`, as rationals. -/
def reportedFractions (tr : List Ev) (total : Nat) : List ℚ :=
  (reportedProgress tr total).map fun pr => (pr.1 : ℚ) / (pr.2 : ℚ)

/-! ## Concurrency controller (`GenerateSpeechChunks`)

Each worker goroutine `i` performs its provider call and writes only the
result slots `results[i]` / `errs[i]`; the scheduler decides the completion
order.  The model takes the per-index outcome `f` and an arbitrary completion
order and replays the slot writes in that order, then assembles the way the
source does after `wg.Wait()`: return the first error in index order if any,
else the concatenation of the result buffers in index order. -/

/-- Replay the slot writes of the workers in completion order `order`. -/
def runSchedule {α : Type} (f : Nat → α) (order : List Nat) (slots : List (Option α)) :
    List (Option α) :=
  order.foldl (fun acc i => acc.set i (some (f i))) slots

/-- The sequential epilogue of `GenerateSpeechChunks`: first error in index
order, else ordered concatenation. -/
def assembleSlots (n : Nat) (slots : List (Option (Except GoStr AudioBytes))) :
    Except GoStr AudioBytes :=
  match (List.range n).findSome? (fun i =>
      match slots.getD i none with
      | some (.error e) => some e
      | _ => none) with
  | some e => .error e
  | none =>
    .ok ((List.range n).flatMap fun i =>
      match slots.getD i none with
      | some (.ok d) => d
      | _ => [])

/-- `GenerateSpeechChunks` after the parts are fixed: `n` workers, per-index
outcomes `f`, completion order `order`. -/
def GenerateSpeechChunks (n : Nat) (f : Nat → Except GoStr AudioBytes)
    (order : List Nat) : Except GoStr AudioBytes :=
  assembleSlots n (runSchedule f order (List.replicate n none))

/-! ## Concrete scenario providers used by counterexamples and witnesses -/

/-- A Google provider whose every call fails with a non-retryable error. -/
def alwaysFailProvider : ProviderModel Unit :=
  { name := "google".toList, maxTokensPerChunk := 1666,
    gen := fun _ _ => ((), .error "boom".toList) }

/-- A Google provider that succeeds exactly on the texts `aa` and `bb`. -/
def subSuccessProvider : ProviderModel Unit :=
  { name := "google".toList, maxTokensPerChunk := 1666,
    gen := fun _ r =>
      ((), if r.Text = "aa".toList ∨ r.Text = "bb".toList then .ok [1] else .error "boom".toList) }

/-- A provider that fails with a retryable `502` error on its first two calls
and succeeds from the third on. -/
def retryTwiceProvider : ProviderModel Nat :=
  { name := "google".toList, maxTokensPerChunk := 1666,
    gen := fun n _ => (n + 1, if n < 2 then .error "502 bad gateway".toList else .ok [9]) }

/-- The request used by the concrete scenarios: the text `hi` with a standard
Google voice. -/
def googleRequest : UnifiedRequest :=
  { Text := "hi".toList, Voice := "de-DE-Chirp3-HD-Kore".toList, Speed := 1,
    Format := "mp3".toList, ModelName := [] }

/-- A two-word request whose only top-level chunk fails and is recovered by
sub-chunking. -/
def twoWordRequest : UnifiedRequest :=
  { Text := "aa bb".toList, Voice := "de-DE-Chirp3-HD-Kore".toList, Speed := 1,
    Format := "mp3".toList, ModelName := [] }

end Quacker

namespace Quacker

/-! ## Theorems for the claims -/

/-- C1 (code bug evidence): with byte budget 2, `SplitTextByteLimit` returns
the single chunk `aaaa.` of 5 bytes.  The over-budget single word is packed
verbatim by the sentence-level accumulator instead of being resolved by the
rune fallback, so the budget invariant of the claim fails on the code. -/
theorem C1_budget_violation_eval :
    SplitTextByteLimit "aaaa.".toList 2 = ["aaaa.".toList] ∧
    byteLen "aaaa.".toList = 5 ∧ ¬ (5 ≤ 2) := by decide

/-- C2 (code bug evidence): the word-level splitter flushes an empty
accumulator, so `SplitTextByteLimit "ab cd" 2` returns an empty chunk; and
the sentence-level accumulator concatenates trimmed segments without a
separating space, so `SplitTextByteLimit "aa. bb." 6` fuses the two sentences
into `aa.bb.`, which no whitespace normalization can map back to the
original content. -/
theorem C2_roundtrip_violation_eval :
    SplitTextByteLimit "ab cd".toList 2 = [[], "ab".toList, "cd".toList] ∧
    ([] : GoStr) ∈ SplitTextByteLimit "ab cd".toList 2 ∧
    SplitTextByteLimit "aa. bb.".toList 6 = ["aa.bb.".toList] := by decide

/-- C8 (counterexample): the string `" a"` costs 2 ≤ 5 bytes, yet re-chunking
it returns `["a"]`, not `[" a"]`: the chunkers trim their input first, so a
unit with surrounding whitespace is not returned unchanged. -/
theorem C8_counterexample :
    byteLen " a".toList ≤ 5 ∧
    SplitTextByteLimit " a".toList 5 = ["a".toList] ∧
    "a".toList ≠ " a".toList := by decide

/-- Taking the whole string as a Go slice is the identity. -/
theorem slice_full (s : GoStr) : slice s 0 s.length = s := by
  simp [slice]

/-- A nonempty list is not `isEmpty`. -/
theorem isEmpty_eq_false_of_ne_nil {s : GoStr} (h : s ≠ []) : s.isEmpty = false := by
  cases s with
  | nil => exact absurd rfl h
  | cons a l => rfl

/-- `GetInitialChunks` returns a trimmed nonempty separator-free string
unchanged as a single chunk. -/
theorem GetInitialChunks_eq_single {u : GoStr} (htrim : trimSpace u = u) (hne : u ≠ [])
    (hhr : findAllIdx hrMatchAt u = []) (hmn : findAllIdx mnMatchAt u = []) :
    GetInitialChunks u = [u] := by
  have hie : u.isEmpty = false := isEmpty_eq_false_of_ne_nil hne
  simp only [GetInitialChunks, goSplit, hhr, hmn, splitAtMatches, slice_full,
    List.filter_cons, List.filter_nil, htrim, hie]
  simp [htrim, hie]

/-- C8 (amended): re-chunking is the identity on every nonempty trimmed unit
in which neither major-separator pattern matches and whose cost is within
budget — for the byte chunker and for the token chunker under any encoder. -/
theorem C8_rechunk_identity (u : GoStr) (B : Nat) (enc : GoStr → Nat)
    (htrim : trimSpace u = u) (hne : u ≠ [])
    (hhr : findAllIdx hrMatchAt u = []) (hmn : findAllIdx mnMatchAt u = [])
    (hbyte : byteLen u ≤ B) (htok : enc u ≤ B) :
    SplitTextByteLimit u B = [u] ∧ SplitTextTokenLimit enc u B = [u] := by
  have hie : u.isEmpty = false := isEmpty_eq_false_of_ne_nil hne
  have hinit := GetInitialChunks_eq_single htrim hne hhr hmn
  constructor
  · simp [SplitTextByteLimit, htrim, hie, hinit, hbyte]
  · simp [SplitTextTokenLimit, htrim, hie, hinit, htok]

/-- C8 (witness): the amended identity at the unit `ab` with byte budget 2
and the byte-length encoder. -/
theorem C8_rechunk_identity_witness :
    SplitTextByteLimit "ab".toList 2 = ["ab".toList] ∧
    SplitTextTokenLimit byteLen "ab".toList 2 = ["ab".toList] :=
  C8_rechunk_identity "ab".toList 2 byteLen (by decide) (by decide) (by decide)
    (by decide) (by decide) (by decide)

/-- Monotonicity of `Char.toNat`, used to bound the sanitizer output. -/
theorem char_toNat_le_of_le {a b : Char} (h : a ≤ b) : a.toNat ≤ b.toNat := by
  rw [Char.le_def, UInt32.le_def, BitVec.le_def] at h
  exact h

/-- C10: `sanitizeWordForTTS` keeps exactly the ASCII letters, digits and
spaces of its input, in order; it is therefore idempotent, every character of
its output is ASCII (so every non-ASCII character, umlauts included, is
stripped), and for example `Grüße` becomes `Gre`. -/
theorem C10_sanitize_characterization :
    (∀ s : GoStr, sanitizeWordForTTS s =
      s.filter fun r => ('a' ≤ r && r ≤ 'z') || ('A' ≤ r && r ≤ 'Z') ||
        ('0' ≤ r && r ≤ '9') || r = ' ') ∧
    (∀ s : GoStr, sanitizeWordForTTS (sanitizeWordForTTS s) = sanitizeWordForTTS s) ∧
    (∀ s : GoStr, ((sanitizeWordForTTS s).all fun c => decide (c.toNat < 128)) = true) ∧
    sanitizeWordForTTS "Grüße".toList = "Gre".toList := by
  have hfilter : ∀ s : GoStr, sanitizeWordForTTS s =
      s.filter fun r => ('a' ≤ r && r ≤ 'z') || ('A' ≤ r && r ≤ 'Z') ||
        ('0' ≤ r && r ≤ '9') || r = ' ' := by
    intro s
    induction s with
    | nil => rfl
    | cons a l ih =>
      simp only [sanitizeWordForTTS, List.filter_cons]
      split <;> simp_all
  have hkeep : ∀ c : Char, (('a' ≤ c && c ≤ 'z') || ('A' ≤ c && c ≤ 'Z') ||
      ('0' ≤ c && c ≤ '9') || decide (c = ' ')) = true → c.toNat < 128 := by
    intro c h
    simp only [Bool.or_eq_true, Bool.and_eq_true, decide_eq_true_eq] at h
    have hz : ('z').toNat = 122 := by decide
    have hZ : ('Z').toNat = 90 := by decide
    have h9 : ('9').toNat = 57 := by decide
    rcases h with ((⟨_, h2⟩ | ⟨_, h2⟩) | ⟨_, h2⟩) | h2
    · have := char_toNat_le_of_le h2
      omega
    · have := char_toNat_le_of_le h2
      omega
    · have := char_toNat_le_of_le h2
      omega
    · subst h2
      decide
  refine ⟨hfilter, ?_, ?_, by decide⟩
  · intro s
    simp only [hfilter, List.filter_filter, Bool.and_self]
  · intro s
    rw [List.all_eq_true]
    intro c hc
    rw [hfilter] at hc
    have hp := List.of_mem_filter hc
    simpa using hkeep c hp

/-- The retry loop calls the provider at most once per remaining iteration,
always with the unchanged chunk text, and its sleeps follow the backoff
schedule `getBackoffDelay attempt, getBackoffDelay (attempt+1), …` for the
consecutive failed retryable attempts. -/
theorem attemptLoopAux_spec {σ : Type} (p : ProviderModel σ) (req : UnifiedRequest)
    (chunk : GoStr) (maxRetries : Nat) :
    ∀ (rem attempt : Nat) (st : σ),
      countCalls (attemptLoopAux p req chunk maxRetries attempt rem st).2.1 ≤ rem ∧
      ((callTexts (attemptLoopAux p req chunk maxRetries attempt rem st).2.1).all
        fun t => t == chunk) = true ∧
      ∃ k, sleepSecs (attemptLoopAux p req chunk maxRetries attempt rem st).2.1 =
        (List.range' attempt k).map getBackoffDelay := by
  intro rem
  induction rem with
  | zero =>
    intro attempt st
    refine ⟨by simp [attemptLoopAux, countCalls], by simp [attemptLoopAux, callTexts], 0, ?_⟩
    simp [attemptLoopAux, sleepSecs]
  | succ rem ih =>
    intro attempt st
    simp only [attemptLoopAux]
    rcases hg : p.gen st (chunkRequest req chunk) with ⟨st1, res⟩
    cases res with
    | ok d =>
      refine ⟨by simp [countCalls], by simp [callTexts, chunkRequest], 0, ?_⟩
      simp [sleepSecs]
    | error e =>
      by_cases hr : (attempt < maxRetries && isRetryableTTS e) = true
      · simp only [hr, if_true]
        obtain ⟨h1, h2, k, h3⟩ := ih (attempt + 1) st1
        refine ⟨?_, ?_, k + 1, ?_⟩
        · by_cases hq : isQuotaOrRateError e = true <;>
            simp [hq, countCalls, List.countP_cons, List.countP_append] at h1 ⊢ <;> omega
        · by_cases hq : isQuotaOrRateError e = true <;>
            simp [hq, callTexts, chunkRequest, List.filterMap_cons, List.filterMap_append] at h2 ⊢ <;>
            exact h2
        · have hrange : List.range' attempt (k + 1) =
              attempt :: List.range' (attempt + 1) k := rfl
          simp only [sleepSecs] at h3
          by_cases hq : isQuotaOrRateError e = true <;>
            simp [hq, sleepSecs, List.filterMap_cons, List.filterMap_append, hrange, h3]
      · simp only [hr, if_false]
        refine ⟨by simp [countCalls], by simp [callTexts, chunkRequest], 0, ?_⟩
        simp [sleepSecs]

/-- C4: within the retry loop of `processChunkRecursivelyWithDepth`, the
provider is called at most `MaxRetries` times (3 by default) and always with
the unchanged chunk text; after consecutive retryable failures the sleeps
follow the escalating schedule `getBackoffDelay` (30s after attempt 1, 60s
after attempt 2, 120s thereafter); and against a provider that fails with a
retryable `502` twice and then succeeds, the loop makes exactly three calls,
sleeps 30s then 60s, and succeeds. -/
theorem C4_retry_loop_behaviour :
    (∀ (σ : Type) (p : ProviderModel σ) (req : UnifiedRequest) (chunk : GoStr)
        (maxRetries : Nat) (st : σ),
      countCalls (attemptLoop p req chunk maxRetries st).2.1 ≤ maxRetries ∧
      ((callTexts (attemptLoop p req chunk maxRetries st).2.1).all
        fun t => t == chunk) = true ∧
      ∃ k, sleepSecs (attemptLoop p req chunk maxRetries st).2.1 =
        (List.range' 1 k).map getBackoffDelay) ∧
    DefaultProcessorConfig.MaxRetries = 3 ∧
    getBackoffDelay 1 = 30 ∧ getBackoffDelay 2 = 60 ∧
    (∀ k, getBackoffDelay (k + 3) = 120) ∧
    (countCalls (attemptLoop retryTwiceProvider googleRequest "hi".toList 3 0).2.1 = 3 ∧
      sleepSecs (attemptLoop retryTwiceProvider googleRequest "hi".toList 3 0).2.1 = [30, 60] ∧
      (attemptLoop retryTwiceProvider googleRequest "hi".toList 3 0).2.2 = .success [9]) := by
  refine ⟨?_, by decide, by decide, by decide, ?_, by decide, by decide, by decide⟩
  · intro σ p req chunk maxRetries st
    exact attemptLoopAux_spec p req chunk maxRetries maxRetries 1 st
  · intro k
    simp [getBackoffDelay]

/-- C6: whenever `processChunkRecursivelyWithDepth` is invoked (uncancelled)
at a recursion level above 20, it reports the depth failure through the error
callback and returns the `recursion depth exceeded` error without any
provider call, at every fuel. -/
theorem C6_depth_guard {σ : Type} (p : ProviderModel σ) (enc : GoStr → Nat)
    (req : UnifiedRequest) (isGoogle : Bool) (cfg : ProcessorConfig)
    (fuel : Nat) (chunk : GoStr) (level : Nat) (st : σ) (h : 20 < level) :
    processChunkWD p enc false req isGoogle cfg fuel chunk level st =
      (st, [.errCb (depthExceededMsg chunk)], .error recursionDepthErr) ∧
    countCalls (processChunkWD p enc false req isGoogle cfg fuel chunk level st).2.1 = 0 ∧
    countErrCb (processChunkWD p enc false req isGoogle cfg fuel chunk level st).2.1 = 1 := by
  have heq : processChunkWD p enc false req isGoogle cfg fuel chunk level st =
      (st, [.errCb (depthExceededMsg chunk)], .error recursionDepthErr) := by
    cases fuel with
    | zero => simp [processChunkWD]
    | succ fuel =>
      simp [processChunkWD, h]
  refine ⟨heq, ?_, ?_⟩ <;> rw [heq] <;> simp [countCalls, countErrCb]

/-- C6 (witness): the depth guard at level 21 on a concrete run. -/
theorem C6_depth_guard_witness :
    processChunkWD alwaysFailProvider byteLen false googleRequest true
        DefaultProcessorConfig 22 "x".toList 21 () =
      ((), [.errCb (depthExceededMsg "x".toList)], .error recursionDepthErr) :=
  (C6_depth_guard alwaysFailProvider byteLen googleRequest true DefaultProcessorConfig
    22 "x".toList 21 () (by decide)).1

/-- Replaying slot writes preserves the slot-array length. -/
theorem runSchedule_length {α : Type} (f : Nat → α) :
    ∀ (order : List Nat) (slots : List (Option α)),
      (runSchedule f order slots).length = slots.length := by
  intro order
  induction order with
  | nil => intro slots; rfl
  | cons i order ih =>
    intro slots
    have hstep : runSchedule f (i :: order) slots =
        runSchedule f order (slots.set i (some (f i))) := rfl
    rw [hstep, ih, List.length_set]

/-- After replaying the writes, slot `j` holds `f j` exactly when some worker
wrote it (each worker writes only its own slot, and always the same value). -/
theorem runSchedule_getElem? {α : Type} (f : Nat → α) :
    ∀ (order : List Nat) (slots : List (Option α)) (j : Nat),
      (runSchedule f order slots)[j]? =
        if j ∈ order ∧ j < slots.length then some (some (f j)) else slots[j]? := by
  intro order
  induction order with
  | nil => intro slots j; simp [runSchedule]
  | cons i order ih =>
    intro slots j
    have hstep : runSchedule f (i :: order) slots =
        runSchedule f order (slots.set i (some (f i))) := rfl
    rw [hstep, ih, List.length_set]
    by_cases hlt : j < slots.length
    · by_cases hmem : j ∈ order
      · simp [hmem, hlt, List.mem_cons]
      · by_cases hij : i = j
        · subst hij
          simp [hmem, hlt, List.getElem?_set, List.mem_cons]
        · have hji : ¬ j = i := fun h => hij h.symm
          simp [hmem, hlt, hij, hji, List.getElem?_set, List.mem_cons]
    · have hnone : slots[j]? = none := List.getElem?_eq_none (by omega)
      have hnone2 : (slots.set i (some (f i)))[j]? = none :=
        List.getElem?_eq_none (by rw [List.length_set]; omega)
      simp [hlt, hnone, hnone2]

/-- When the completion order is a permutation of the worker indices, the
final slot array is exactly the per-index results in index order. -/
theorem runSchedule_perm_slots {α : Type} (f : Nat → α) (n : Nat) (order : List Nat)
    (hperm : order.Perm (List.range n)) :
    runSchedule f order (List.replicate n none) =
      (List.range n).map fun i => some (f i) := by
  apply List.ext_getElem?
  intro j
  rw [runSchedule_getElem?, List.length_replicate]
  by_cases hj : j < n
  · have hmem : j ∈ order := hperm.mem_iff.mpr (List.mem_range.mpr hj)
    simp [hmem, hj, List.getElem?_range hj]
  · have h1 : ((List.range n).map fun i => some (f i))[j]? = none :=
      List.getElem?_eq_none (by simp; omega)
    have h2 : (List.replicate n (none : Option α))[j]? = none :=
      List.getElem?_eq_none (by simp; omega)
    simp [hj, h1, h2]

/-- `flatMap` only depends on the function on the members. -/
theorem flatMap_congr_mem {α β : Type} {l : List α} {fn gn : α → List β}
    (h : ∀ x ∈ l, fn x = gn x) : l.flatMap fn = l.flatMap gn := by
  induction l with
  | nil => rfl
  | cons a l ih =>
    simp only [List.flatMap_cons]
    rw [h a (List.mem_cons_self a l), ih fun x hx => h x (List.mem_cons_of_mem a hx)]

/-- C5: for every per-worker outcome function and every completion order of
the workers (any permutation of the indices), the slot array ends up holding
result `i` in slot `i`, the assembled output of `GenerateSpeechChunks` is
independent of the completion order, and when every worker succeeds it is the
byte-wise concatenation of the per-chunk audio in original chunk order. -/
theorem C5_order_independent_assembly (n : Nat) (f : Nat → Except GoStr AudioBytes)
    (order : List Nat) (hperm : order.Perm (List.range n)) :
    runSchedule f order (List.replicate n none) =
      ((List.range n).map fun i => some (f i)) ∧
    GenerateSpeechChunks n f order = GenerateSpeechChunks n f (List.range n) ∧
    ∀ g : Nat → AudioBytes, (∀ i, f i = .ok (g i)) →
      GenerateSpeechChunks n f order = .ok ((List.range n).flatMap g) := by
  have hslots := runSchedule_perm_slots f n order hperm
  have hslots2 := runSchedule_perm_slots f n (List.range n) (List.Perm.refl _)
  have hget : ∀ i < n, (((List.range n).map fun i => some (f i)).getD i none) = some (f i) := by
    intro i hi
    rw [List.getD_eq_getElem?_getD]
    simp [List.getElem?_range hi]
  refine ⟨hslots, ?_, ?_⟩
  · rw [GenerateSpeechChunks, GenerateSpeechChunks, hslots, hslots2]
  · intro g hg
    rw [GenerateSpeechChunks, hslots]
    have hfs : (List.range n).findSome? (fun i =>
        match (((List.range n).map fun i => some (f i)).getD i none) with
        | some (.error e) => some e
        | _ => none) = none := by
      rw [List.findSome?_eq_none_iff]
      intro x hx
      rw [hget x (List.mem_range.mp hx), hg x]
    rw [assembleSlots, hfs]
    refine congrArg Except.ok (flatMap_congr_mem ?_)
    intro x hx
    rw [hget x (List.mem_range.mp hx), hg x]

/-- C5 (witness): two workers finishing in reversed order still assemble in
index order. -/
theorem C5_order_independent_assembly_witness :
    GenerateSpeechChunks 2 (fun i => .ok [i]) [1, 0] =
      GenerateSpeechChunks 2 (fun i => .ok [i]) (List.range 2) ∧
    GenerateSpeechChunks 2 (fun i => .ok [i]) [1, 0] =
      .ok ((List.range 2).flatMap fun i => [i]) :=
  ⟨(C5_order_independent_assembly 2 (fun i => .ok [i]) [1, 0] (by decide)).2.1,
    (C5_order_independent_assembly 2 (fun i => .ok [i]) [1, 0] (by decide)).2.2
      (fun i => [i]) (fun _ => rfl)⟩

/-- Error-callback counts add up over concatenated traces. -/
theorem countErrCb_append (a b : List Ev) :
    countErrCb (a ++ b) = countErrCb a + countErrCb b := by
  simp [countErrCb, List.countP_append]

/-- A trace ending in an error callback has at least one error callback. -/
theorem one_le_countErrCb_concat (tr : List Ev) (msg : GoStr) :
    1 ≤ countErrCb (tr ++ [Ev.errCb msg]) := by
  simp [countErrCb, List.countP_append, List.countP_cons]

/-- An error callback in the appended part survives concatenation. -/
theorem one_le_countErrCb_append_right (a b : List Ev) (h : 1 ≤ countErrCb b) :
    1 ≤ countErrCb (a ++ b) := by
  rw [countErrCb_append]
  omega

/-- Every error exit of the minimum-size-chunk logic passes through the final
error callback. -/
theorem minChunkLogic_error_has_errCb {σ : Type} (p : ProviderModel σ) (req : UnifiedRequest)
    (chunk : GoStr) (isGoogle : Bool) (cfg : ProcessorConfig) (lastErr0 : Option GoStr)
    (st0 : σ) (e : GoStr)
    (h : (minChunkLogic p req chunk isGoogle cfg lastErr0 st0).2.2 = .error e) :
    1 ≤ countErrCb (minChunkLogic p req chunk isGoogle cfg lastErr0 st0).2.1 := by
  revert h
  simp only [minChunkLogic]
  split
  · intro h
    simp at h
  · split
    · intro h
      simp at h
    · split
      · split
        · intro h
          simp at h
        · split
          · intro h
            simp at h
          · intro _
            exact one_le_countErrCb_concat _ _
      · intro _
        exact one_le_countErrCb_concat _ _

/-- With an uncancelled context, every error exit of
`processChunkRecursivelyWithDepth` reports at least one error callback. -/
theorem processChunkWD_error_has_errCb {σ : Type} (p : ProviderModel σ) (enc : GoStr → Nat)
    (req : UnifiedRequest) (isGoogle : Bool) (cfg : ProcessorConfig)
    (fuel : Nat) (chunk : GoStr) (level : Nat) (st : σ) (e : GoStr)
    (h : (processChunkWD p enc false req isGoogle cfg fuel chunk level st).2.2 = .error e) :
    1 ≤ countErrCb (processChunkWD p enc false req isGoogle cfg fuel chunk level st).2.1 := by
  revert h
  cases fuel with
  | zero =>
    intro _
    simp [processChunkWD, countErrCb]
  | succ fuel =>
    simp only [processChunkWD, Bool.false_eq_true, if_false]
    by_cases hl : 20 < level
    · intro _
      simp [hl, countErrCb]
    · simp only [if_neg hl]
      repeat' split
      all_goals intro h
      all_goals
        first
          | (exfalso; simp at h; done)
          | exact one_le_countErrCb_concat _ _
          | exact one_le_countErrCb_append_right _ _
              (minChunkLogic_error_has_errCb p req chunk isGoogle cfg _ _ e h)

/-- C3 (counterexample): against a Google provider failing every call, the
single-word job `hi` completes with a nil job-level error and an empty
buffer, but the failed chunk emits two warnings through the error callback,
not exactly one. -/
theorem C3_counterexample :
    countErrCb (ProcessTextToSpeech alwaysFailProvider byteLen false googleRequest
      none ()).2.1 = 2 ∧
    (ProcessTextToSpeech alwaysFailProvider byteLen false googleRequest none ()).2.2.2 = none ∧
    (ProcessTextToSpeech alwaysFailProvider byteLen false googleRequest none ()).2.2.1 = [] ∧
    (2 : Nat) ≠ 1 := by decide

/-- C3 (amended): `ProcessTextToSpeech` always returns a nil job-level error
(per-chunk failures and even cancellation are swallowed); each chunk
contributes its audio exactly when it succeeds and nothing otherwise; and in
an uncancelled run every failed chunk reports at least one warning through
the error callback (possibly more than one). -/
theorem C3_partial_failure_policy :
    (∀ (σ : Type) (p : ProviderModel σ) (enc : GoStr → Nat) (cancelled : Bool)
        (req : UnifiedRequest) (cfgOpt : Option ProcessorConfig) (st : σ),
      (ProcessTextToSpeech p enc cancelled req cfgOpt st).2.2.2 = none) ∧
    (∀ (σ : Type) (p : ProviderModel σ) (enc : GoStr → Nat) (cancelled : Bool)
        (req : UnifiedRequest) (isGoogle : Bool) (cfg : ProcessorConfig)
        (c : GoStr) (cs : List GoStr) (st : σ),
      (processAllChunks p enc cancelled req isGoogle cfg (c :: cs) st).2.2 =
        (match (processChunkRecursively p enc cancelled req c isGoogle cfg st).2.2 with
          | .ok d => d
          | .error _ => []) ++
        (processAllChunks p enc cancelled req isGoogle cfg cs
          (processChunkRecursively p enc cancelled req c isGoogle cfg st).1).2.2) ∧
    (∀ (σ : Type) (p : ProviderModel σ) (enc : GoStr → Nat) (req : UnifiedRequest)
        (isGoogle : Bool) (cfg : ProcessorConfig) (fuel : Nat) (chunk : GoStr)
        (level : Nat) (st : σ) (e : GoStr),
      (processChunkWD p enc false req isGoogle cfg fuel chunk level st).2.2 = .error e →
      1 ≤ countErrCb (processChunkWD p enc false req isGoogle cfg fuel chunk level st).2.1) := by
  refine ⟨?_, ?_, ?_⟩
  · intro σ p enc cancelled req cfgOpt st
    rfl
  · intro σ p enc cancelled req isGoogle cfg c cs st
    simp only [processAllChunks]
    cases hr : (processChunkRecursively p enc cancelled req c isGoogle cfg st).2.2 with
    | ok d => simp [hr]
    | error e2 => simp [hr]
  · intro σ p enc req isGoogle cfg fuel chunk level st e h
    exact processChunkWD_error_has_errCb p enc req isGoogle cfg fuel chunk level st e h

/-- C3 (witness): the failed-chunk warning guarantee at a concrete failing
run. -/
theorem C3_partial_failure_policy_witness :
    1 ≤ countErrCb (processChunkWD alwaysFailProvider byteLen false googleRequest true
      DefaultProcessorConfig 22 "hi".toList 0 ()).2.1 :=
  C3_partial_failure_policy.2.2 Unit alwaysFailProvider byteLen googleRequest
    true DefaultProcessorConfig 22 "hi".toList 0 () "boom".toList (by decide)

/-- A provider that succeeds on the first attempt of every call. -/
def alwaysOkProvider : ProviderModel Unit :=
  { name := "google".toList, maxTokensPerChunk := 1666,
    gen := fun _ _ => ((), .ok [5]) }

/-- The reported fraction sequence of any trace never decreases. -/
theorem fractions_chain_le (tr : List Ev) (total : Nat) :
    (reportedFractions tr total).Chain' (· ≤ ·) := by
  simp only [reportedFractions, reportedProgress, List.map_map]
  apply List.Pairwise.chain'
  rw [List.pairwise_map]
  apply List.Pairwise.imp ?_ (List.pairwise_lt_range (countProgress tr))
  intro a b hab
  rcases Nat.eq_zero_or_pos total with h0 | hpos
  · subst h0
    simp
  · have hq : (0 : ℚ) < (total : ℚ) := by exact_mod_cast hpos
    simp only [Function.comp]
    rw [div_le_div_iff_of_pos_right hq]
    exact_mod_cast Nat.succ_le_succ (le_of_lt hab)

/-- With a positive total, the reported fraction sequence is strictly
increasing. -/
theorem fractions_chain_lt (tr : List Ev) (total : Nat) (hpos : 0 < total) :
    (reportedFractions tr total).Chain' (· < ·) := by
  simp only [reportedFractions, reportedProgress, List.map_map]
  apply List.Pairwise.chain'
  rw [List.pairwise_map]
  apply List.Pairwise.imp ?_ (List.pairwise_lt_range (countProgress tr))
  intro a b hab
  have hq : (0 : ℚ) < (total : ℚ) := by exact_mod_cast hpos
  simp only [Function.comp]
  rw [div_lt_div_iff_of_pos_right hq]
  exact_mod_cast Nat.succ_lt_succ hab

/-- Against a provider that always succeeds, the retry loop succeeds on its
first attempt, emitting one call and one progress event. -/
theorem attemptLoop_always_ok {σ : Type} (p : ProviderModel σ) (req : UnifiedRequest)
    (chunk : GoStr) (m : Nat) (st : σ)
    (H : ∀ (s : σ) (r : UnifiedRequest), ∃ st2 d, p.gen s r = (st2, Except.ok d)) :
    ∃ st2 d, attemptLoop p req chunk (m + 1) st =
      (st2, [.call (chunkRequest req chunk), .progress], .success d) := by
  obtain ⟨st2, d, hg⟩ := H st (chunkRequest req chunk)
  refine ⟨st2, d, ?_⟩
  simp only [attemptLoop, attemptLoopAux, hg]

/-- Against a provider that always succeeds, every chunk run succeeds with a
single call and a single progress event. -/
theorem processChunkRecursively_always_ok {σ : Type} (p : ProviderModel σ)
    (enc : GoStr → Nat) (req : UnifiedRequest) (isGoogle : Bool) (cfg : ProcessorConfig)
    (chunk : GoStr) (st : σ)
    (H : ∀ (s : σ) (r : UnifiedRequest), ∃ st2 d, p.gen s r = (st2, Except.ok d))
    (hmr : 1 ≤ cfg.MaxRetries) :
    ∃ st2 d, processChunkRecursively p enc false req chunk isGoogle cfg st =
      (st2, [.call (chunkRequest req chunk), .progress], .ok d) := by
  obtain ⟨m, hm⟩ : ∃ m, cfg.MaxRetries = m + 1 := ⟨cfg.MaxRetries - 1, by omega⟩
  obtain ⟨st2, d, hal⟩ := attemptLoop_always_ok p req chunk m st H
  refine ⟨st2, d, ?_⟩
  have h20 : ¬ (20 < 0) := by omega
  simp only [processChunkRecursively, processChunkWD, Bool.false_eq_true, if_false,
    if_neg h20, hm, hal]

/-- Against a provider that always succeeds, the chunk loop emits exactly one
progress event per chunk. -/
theorem processAllChunks_always_ok {σ : Type} (p : ProviderModel σ) (enc : GoStr → Nat)
    (req : UnifiedRequest) (isGoogle : Bool) (cfg : ProcessorConfig)
    (H : ∀ (s : σ) (r : UnifiedRequest), ∃ st2 d, p.gen s r = (st2, Except.ok d))
    (hmr : 1 ≤ cfg.MaxRetries) :
    ∀ (chunks : List GoStr) (st : σ),
      countProgress (processAllChunks p enc false req isGoogle cfg chunks st).2.1 =
        chunks.length := by
  intro chunks
  induction chunks with
  | nil =>
    intro st
    simp [processAllChunks, countProgress]
  | cons c cs ih =>
    intro st
    obtain ⟨st2, d, hc⟩ := processChunkRecursively_always_ok p enc req isGoogle cfg c st H hmr
    simp only [processAllChunks, hc]
    simp only [countProgress, List.countP_append, List.countP_cons] at ih ⊢
    simp only [ih st2]
    simp
    omega

/-- C7 (counterexample): a single-chunk job whose chunk is recovered through
two sub-chunk successes reports the pairs `(1,1)` then `(2,1)`: the second
reported fraction is `2/1 > 1`, outside `[0,1]`. -/
theorem C7_counterexample :
    reportedProgress (ProcessTextToSpeech subSuccessProvider byteLen false twoWordRequest
        none ()).2.1
      (pipelineChunks subSuccessProvider byteLen twoWordRequest).length = [(1, 1), (2, 1)] ∧
    ¬ ((2 : ℚ) / 1 ≤ 1) := ⟨by decide, by norm_num⟩

/-- C7 (amended): the reported fraction sequence of every run never
decreases; and when the provider succeeds on the first attempt of every call,
the run reports exactly one fraction per chunk, the fractions are strictly
increasing, and the last one equals 1. -/
theorem C7_progress_reporting :
    (∀ (tr : List Ev) (total : Nat), (reportedFractions tr total).Chain' (· ≤ ·)) ∧
    (∀ (σ : Type) (p : ProviderModel σ) (enc : GoStr → Nat) (req : UnifiedRequest)
        (cfgOpt : Option ProcessorConfig) (st : σ),
      (∀ (s : σ) (r : UnifiedRequest), ∃ st2 d, p.gen s r = (st2, Except.ok d)) →
      1 ≤ (cfgOpt.getD DefaultProcessorConfig).MaxRetries →
      countProgress (ProcessTextToSpeech p enc false req cfgOpt st).2.1 =
        (pipelineChunks p enc req).length ∧
      (pipelineChunks p enc req ≠ [] →
        (reportedFractions (ProcessTextToSpeech p enc false req cfgOpt st).2.1
          (pipelineChunks p enc req).length).getLast? = some 1 ∧
        (reportedFractions (ProcessTextToSpeech p enc false req cfgOpt st).2.1
          (pipelineChunks p enc req).length).Chain' (· < ·))) := by
  refine ⟨fractions_chain_le, ?_⟩
  intro σ p enc req cfgOpt st H hmr
  have hcount : countProgress (ProcessTextToSpeech p enc false req cfgOpt st).2.1 =
      (pipelineChunks p enc req).length := by
    simp only [ProcessTextToSpeech, pipelineChunks]
    exact processAllChunks_always_ok p enc req _ _ H hmr _ st
  refine ⟨hcount, ?_⟩
  intro hne
  have hlen : 0 < (pipelineChunks p enc req).length := List.length_pos.mpr hne
  obtain ⟨m, hm⟩ : ∃ m, (pipelineChunks p enc req).length = m + 1 :=
    ⟨(pipelineChunks p enc req).length - 1, by omega⟩
  constructor
  · simp only [reportedFractions, reportedProgress, hcount, hm, List.map_map,
      List.range_succ, List.map_append, List.map_cons, List.map_nil]
    rw [List.getLast?_concat]
    rw [div_self (by push_cast; positivity)]
  · exact fractions_chain_lt _ _ hlen

/-- Whether an `Except` is a success. -/
def exceptIsOk {ε α : Type} : Except ε α → Bool
  | .ok _ => true
  | .error _ => false

/-- The event of a provider call with the fixed substitute text under the
`en-US-` prefixed original voice. -/
def isPlaceholderCall (voice : GoStr) (e : Ev) : Bool :=
  match e with
  | .call r => r.Text == placeholderText && r.Voice == ("en-US-".toList ++ voice)
  | _ => false

/-- When the provider fails every call whose text is not the substitute text,
the retry loop on a different text always exits with a failure. -/
theorem attemptLoopAux_always_fail {σ : Type} (p : ProviderModel σ) (req : UnifiedRequest)
    (chunk : GoStr) (maxRetries : Nat)
    (H : ∀ (s : σ) (r : UnifiedRequest), r.Text ≠ placeholderText →
      exceptIsOk (p.gen s r).2 = false)
    (hch : chunk ≠ placeholderText) :
    ∀ (rem attempt : Nat) (st : σ), ∃ st1 tr le,
      attemptLoopAux p req chunk maxRetries attempt rem st = (st1, tr, .failed le) := by
  intro rem
  induction rem with
  | zero =>
    intro attempt st
    exact ⟨st, [], none, rfl⟩
  | succ rem ih =>
    intro attempt st
    have hfail := H st (chunkRequest req chunk) hch
    rcases hg : p.gen st (chunkRequest req chunk) with ⟨st1, res⟩
    cases res with
    | ok d =>
      rw [hg] at hfail
      simp [exceptIsOk] at hfail
    | error e =>
      simp only [attemptLoopAux, hg]
      by_cases hr : (attempt < maxRetries && isRetryableTTS e) = true
      · simp only [hr, if_true]
        obtain ⟨st2, tr2, le2, hrec⟩ := ih (attempt + 1) st1
        rw [hrec]
        exact ⟨st2, _, le2, rfl⟩
      · simp only [hr, if_false]
        exact ⟨st1, _, some e, rfl⟩

/-- When the provider fails every non-substitute call, the fallback-voice
loop finds no voice. -/
theorem tryVoices_always_fail {σ : Type} (p : ProviderModel σ) (req : UnifiedRequest)
    (chunk : GoStr)
    (H : ∀ (s : σ) (r : UnifiedRequest), r.Text ≠ placeholderText →
      exceptIsOk (p.gen s r).2 = false)
    (hch : chunk ≠ placeholderText) :
    ∀ (voices : List GoStr) (st : σ) (le : Option GoStr), ∃ st1 tr le2,
      tryVoices p req chunk voices st le = (st1, tr, none, le2) := by
  intro voices
  induction voices with
  | nil =>
    intro st le
    exact ⟨st, [], le, rfl⟩
  | cons v vs ih =>
    intro st le
    have hfail := H st
      { Text := chunk, Voice := v, Speed := req.Speed,
        Format := req.Format, ModelName := req.ModelName } hch
    rcases hg : p.gen st
        { Text := chunk, Voice := v, Speed := req.Speed,
          Format := req.Format, ModelName := req.ModelName } with ⟨st1, res⟩
    cases res with
    | ok d =>
      rw [hg] at hfail
      simp [exceptIsOk] at hfail
    | error e =>
      simp only [tryVoices, hg]
      obtain ⟨st2, tr2, le2, hrec⟩ := ih st1 (some e)
      rw [hrec]
      exact ⟨st2, _, le2, rfl⟩

/-- When the provider fails every non-substitute call, a guarded degradation
attempt on a non-substitute text never succeeds. -/
theorem tryStep_always_fail {σ : Type} (p : ProviderModel σ) (b : Bool)
    (r : UnifiedRequest) (st : σ) (le : Option GoStr)
    (H : ∀ (s : σ) (r : UnifiedRequest), r.Text ≠ placeholderText →
      exceptIsOk (p.gen s r).2 = false)
    (hr : r.Text ≠ placeholderText) :
    ∃ st1 tr le2, tryStep p b r st le = (st1, tr, none, le2) := by
  cases b with
  | false => exact ⟨st, [], le, rfl⟩
  | true =>
    have hfail := H st r hr
    rcases hg : p.gen st r with ⟨st1, res⟩
    cases res with
    | ok d =>
      rw [hg] at hfail
      simp [exceptIsOk] at hfail
    | error e =>
      simp only [tryStep, if_true, hg]
      exact ⟨st1, _, some e, rfl⟩

/-- When every earlier degradation attempt fails, the Google minimum-chunk
logic always issues the substitute call: the fixed text
`Error converting Text. Continuing.` under the voice `en-US-` followed by the
original voice. -/
theorem minChunkLogic_placeholder_call {σ : Type} (p : ProviderModel σ)
    (req : UnifiedRequest) (chunk : GoStr) (cfg : ProcessorConfig)
    (lastErr0 : Option GoStr) (st0 : σ)
    (H : ∀ (s : σ) (r : UnifiedRequest), r.Text ≠ placeholderText →
      exceptIsOk (p.gen s r).2 = false)
    (hch : chunk ≠ placeholderText)
    (hsan : sanitizeWordForTTS chunk ≠ placeholderText)
    (hmd : stripMarkdown chunk ≠ placeholderText) :
    ((minChunkLogic p req chunk true cfg lastErr0 st0).2.1.any
      (isPlaceholderCall req.Voice)) = true := by
  obtain ⟨st1, tr1, le1, h1⟩ := tryStep_always_fail p
    (sanitizeWordForTTS chunk ≠ chunk && !(sanitizeWordForTTS chunk).isEmpty)
    (chunkRequest req (sanitizeWordForTTS chunk)) st0 lastErr0 H hsan
  obtain ⟨st2, tr2, le2, h2⟩ := tryStep_always_fail p
    (stripMarkdown chunk ≠ chunk && !(stripMarkdown chunk).isEmpty)
    (chunkRequest req (stripMarkdown chunk)) st1 le1 H hmd
  obtain ⟨st3, tr3, le3, h3⟩ := tryVoices_always_fail p req chunk H hch
    (cfg.GoogleFallbackVoices.getD
      (buildFallbackVoices (extractLangCode req.Voice) req.Voice)) st2 le2
  have hself : isPlaceholderCall req.Voice (Ev.call (placeholderRequest req)) = true := by
    simp [isPlaceholderCall, placeholderRequest]
  simp only [minChunkLogic, h1, h2, if_true, h3]
  rcases hg : p.gen st3 (placeholderRequest req) with ⟨st4, res⟩
  cases res with
  | ok d => simp [hg, List.any_append, hself]
  | error e => simp [hg, List.any_append, hself]

/-- C9 (counterexample): in a run where every degradation step fails for the
minimum-size chunk `hi`, no provider call ever carries the text
`this section could not be processed`; the substitute call carries the text
`Error converting Text. Continuing.` under the voice `en-US-` followed by the
original voice. -/
theorem C9_counterexample :
    ((callTexts (ProcessTextToSpeech alwaysFailProvider byteLen false googleRequest
        none ()).2.1).any
      (fun t => t == "this section could not be processed".toList)) = false ∧
    ((ProcessTextToSpeech alwaysFailProvider byteLen false googleRequest none ()).2.1.any
      (isPlaceholderCall "de-DE-Chirp3-HD-Kore".toList)) = true := by decide

/-- C9 (amended): for a Google single-word minimum-size chunk on which the
provider fails every non-substitute call (and whose sanitized and
markdown-stripped forms are not the substitute), the pipeline's last resort
is a provider call with the fixed text `Error converting Text. Continuing.`
under the voice `en-US-` followed by the original voice. -/
theorem C9_substitute_last_resort {σ : Type} (p : ProviderModel σ) (enc : GoStr → Nat)
    (req : UnifiedRequest) (cfg : ProcessorConfig) (fuel level : Nat) (chunk : GoStr) (st : σ)
    (H : ∀ (s : σ) (r : UnifiedRequest), r.Text ≠ placeholderText →
      exceptIsOk (p.gen s r).2 = false)
    (hlevel : ¬ 20 < level)
    (hwords : (goFields chunk).length = 1) (hsize : byteLen chunk < 200)
    (hch : chunk ≠ placeholderText)
    (hsan : sanitizeWordForTTS chunk ≠ placeholderText)
    (hmd : stripMarkdown chunk ≠ placeholderText) :
    ((processChunkWD p enc false req true cfg (fuel + 1) chunk level st).2.1.any
      (isPlaceholderCall req.Voice)) = true := by
  obtain ⟨st1, tr1, le1, hal⟩ :=
    attemptLoopAux_always_fail p req chunk cfg.MaxRetries H hch cfg.MaxRetries 1 st
  have hgate : ((goFields chunk).length = 1 && byteLen chunk < 200 ||
      byteLen chunk ≤ cfg.MinChunkBytes) = true := by
    simp [hwords, hsize]
  have hsub : (cfg.MinChunkBytes < byteLen chunk && 1 < (goFields chunk).length) = false := by
    simp [hwords]
  simp only [processChunkWD, Bool.false_eq_true, if_false, if_neg hlevel, attemptLoop, hal,
    hsub, hgate, if_true, List.any_append]
  rw [minChunkLogic_placeholder_call p req chunk cfg le1 st1 H hch hsan hmd]
  simp

/-- C9 (witness): the amended last-resort guarantee at the concrete failing
run on the chunk `hi`. -/
theorem C9_substitute_last_resort_witness :
    ((processChunkWD alwaysFailProvider byteLen false googleRequest true
        DefaultProcessorConfig 22 "hi".toList 0 ()).2.1.any
      (isPlaceholderCall googleRequest.Voice)) = true :=
  C9_substitute_last_resort alwaysFailProvider byteLen googleRequest
    DefaultProcessorConfig 21 0 "hi".toList () (fun _ _ _ => rfl) (by decide)
    (by decide) (by decide) (by decide) (by decide) (by decide)

/-- C7 (witness): the success-run conclusions at a concrete one-chunk job. -/
theorem C7_progress_reporting_witness :
    countProgress (ProcessTextToSpeech alwaysOkProvider byteLen false googleRequest
        none ()).2.1 = (pipelineChunks alwaysOkProvider byteLen googleRequest).length ∧
    (reportedFractions (ProcessTextToSpeech alwaysOkProvider byteLen false googleRequest
        none ()).2.1 (pipelineChunks alwaysOkProvider byteLen googleRequest).length).getLast? =
      some 1 :=
  ⟨(C7_progress_reporting.2 Unit alwaysOkProvider byteLen googleRequest none ()
      (fun s r => ⟨(), [5], rfl⟩) (by decide)).1,
    ((C7_progress_reporting.2 Unit alwaysOkProvider byteLen googleRequest none ()
      (fun s r => ⟨(), [5], rfl⟩) (by decide)).2 (by decide)).1⟩

end Quacker
